import Mathlib

/-!
Shallow embedding of `check_logs.py`, a git pre-commit guard.

The script enumerates the staged files, blocks the commit when any
staged path starts with a protected prefix, and then either scans the
added lines of each staged diff for debug statements (scan mode) or
rewrites each file dropping whole lines that are debug statements
(fix mode, flag `--fix`).

Strings are modelled over their character lists.  The Python string
primitives used by the script (`str.splitlines`, `str.strip`,
`str.startswith`, `'\n'.join`) are embedded for the `'\n'`-newline,
ASCII fragment the tool manipulates: both the subprocess output and
the files are read in text mode, which normalises newlines to `'\n'`,
and the patterns involved are pure ASCII.  The two regular-expression
catalogs (`LOG_PATTERNS`, `FIX_PATTERNS`) are small enough that each
is embedded as an explicit decidable predicate with the exact
semantics of the compiled Python pattern (case-insensitive matching,
word boundaries, the negative lookbehind, greedy `.*` and `\s*` with
backtracking collapse to the positional readings used below).
-/

/-- ASCII fragment of Python whitespace (`\s` in patterns, `str.strip()`). -/
def isPySpace (c : Char) : Bool :=
  c = ' ' || c = '\t' || c = '\n' || c = '\r' || c = '\x0b' || c = '\x0c'

/-- Python regex word character (`\w`, used by `\b` boundaries), ASCII fragment. -/
def isWordChar (c : Char) : Bool := c.isAlphanum || c = '_'

/-- Case-insensitive prefix test on character lists (`re.IGNORECASE` literals). -/
def startsWithCI : List Char → List Char → Bool
  | [], _ => true
  | _ :: _, [] => false
  | p :: ps, c :: cs => (p.toLower == c.toLower) && startsWithCI ps cs

/-- Helper for Python `str.splitlines` (restricted to `'\n'` boundaries):
`cur` is the reversed current line. -/
def splitlinesAux (cur : List Char) : List Char → List (List Char)
  | [] => if cur.isEmpty then [] else [cur.reverse]
  | c :: rest =>
    if c = '\n' then cur.reverse :: splitlinesAux [] rest
    else splitlinesAux (c :: cur) rest

/-- Python `str.splitlines()` (restricted to `'\n'` boundaries): line
terminators are dropped and a trailing terminator yields no extra line. -/
def splitlines (s : String) : List String :=
  (splitlinesAux [] s.data).map String.mk

/-- Python `str.strip()` (ASCII whitespace fragment). -/
def pyStrip (s : String) : String :=
  String.mk (((s.data.dropWhile isPySpace).reverse.dropWhile isPySpace).reverse)

/-- Python `'\n'.join(lines)`. -/
def pyJoinNL : List String → String
  | [] => ""
  | [l] => l
  | l :: ls => l ++ "\n" ++ pyJoinNL ls

/-- `PROTECTED_PATHS` from the source. -/
def PROTECTED_PATHS : List String := ["src/config/", "src/env/"]

/-- `is_protected(file)`: the path starts with some protected path
(Python `file.startswith(path)`). -/
def is_protected (file : String) : Bool :=
  PROTECTED_PATHS.any (fun path => List.isPrefixOf path.data file.data)

/- Literal texts occurring in `LOG_PATTERNS` and `FIX_PATTERNS`. -/

def patConsole : List Char := ("console.log").data

def patPrint : List Char := ("print").data

def patSysOut : List Char := ("System.out.println").data

def patEcho : List Char := ("echo").data

def patLog : List Char := ("log").data

/-- Reversed text of the negative lookbehind `logger.` -/
def patLoggerRev : List Char := ("logger.").data.reverse

/-- Semantics of the regex fragment `\s*\(` at a position: after skipping
the (unique maximal, by backtracking collapse) whitespace run the next
character is `(`. -/
def afterSpacesIsParen (cs : List Char) : Bool :=
  match cs.dropWhile isPySpace with
  | c :: _ => c == '('
  | [] => false

/-- Semantics of the regex fragment `\s+` at a position: at least one
whitespace character follows. -/
def headIsSpace (cs : List Char) : Bool :=
  match cs with
  | c :: _ => isPySpace c
  | [] => false

/-- `\b` before a word character, given the preceding characters in
reverse: the boundary holds iff there is no previous character or the
previous character is not a word character. -/
def atBoundary (prevRev : List Char) : Bool :=
  match prevRev with
  | [] => true
  | p :: _ => !isWordChar p

/-- One position of the combined `LOG_PATTERNS` alternation, after the
leading `^\+.*` of every alternative has consumed the characters whose
reverse is `prevRev`.  The five alternatives are, in source order:
`console\.log`, `\bprint\s*\(`, `System\.out\.println`, `\becho\s+`,
and `(?<!logger\.)\blog\s*\(`. -/
def altAt (prevRev rest : List Char) : Bool :=
  startsWithCI patConsole rest
  || (atBoundary prevRev && startsWithCI patPrint rest
        && afterSpacesIsParen (rest.drop 5))
  || startsWithCI patSysOut rest
  || (atBoundary prevRev && startsWithCI patEcho rest
        && headIsSpace (rest.drop 4))
  || (atBoundary prevRev && !startsWithCI patLoggerRev prevRev
        && startsWithCI patLog rest
        && afterSpacesIsParen (rest.drop 3))

/-- The greedy `.*` of every `LOG_PATTERNS` alternative: try `altAt` at
every position reachable from the current one without crossing a
newline (`.` does not match `'\n'`). -/
def scanSearch (prevRev : List Char) : List Char → Bool
  | [] => altAt prevRev []
  | c :: cs =>
    altAt prevRev (c :: cs)
    || (if c = '\n' then false else scanSearch (c :: prevRev) cs)

/-- `re.compile('|'.join(LOG_PATTERNS), re.IGNORECASE).search(line)` as a
boolean: every alternative is anchored `^\+`, so the line must start with
`'+'` and some alternative must hold at some later position. -/
def log_search (line : String) : Bool :=
  match line.data with
  | c :: rest => c == '+' && scanSearch ['+'] rest
  | [] => false

/-- `FIX_PATTERNS` matching via `p.match(line)` (anchored at the start of
the line): each pattern is `^\s*` followed by one alternative, so the
leading whitespace run is skipped and the alternative must hold right
there.  In the fifth pattern the lookbehind `(?<!logger\.)` inspects the
skipped whitespace (it can never be `logger.`, but it is kept faithful
to the source).  The patterns are, in source order: `^\s*console\.log.*`,
`^\s*print\s*\(.*`, `^\s*System\.out\.println.*`, `^\s*echo\s+.*`,
`^\s*(?<!logger\.)log\s*\(.*`. -/
def fix_match (line : String) : Bool :=
  let ws := line.data.takeWhile isPySpace
  let rest := line.data.dropWhile isPySpace
  startsWithCI patConsole rest
  || (startsWithCI patPrint rest && afterSpacesIsParen (rest.drop 5))
  || startsWithCI patSysOut rest
  || (startsWithCI patEcho rest && headIsSpace (rest.drop 4))
  || (!startsWithCI patLoggerRev ws.reverse
        && startsWithCI patLog rest && afterSpacesIsParen (rest.drop 3))

/-- The file-system and per-file subprocess environment of one
invocation: whether each path exists on disk (`Path.exists`), the staged
diff text of each path (`git diff --cached <file>` stdout), and the
on-disk content of each path (`Path.read_text`). -/
structure Env where
  diskExists : String → Bool
  diffOf : String → String
  contentOf : String → String

/-- Observable effects of one invocation, in order: log messages are
abstracted by kind, file writes and the re-staging `git add` carry their
arguments. -/
inductive Effect where
  | noStagedMsg : Effect
  | blockedHeaderMsg : Effect
  | offendingPath : String → Effect
  | blockedExplainMsg : Effect
  | logDetected : String → String → Effect
  | rejectionMsg : Effect
  | confirmationMsg : Effect
  | removedLine : String → String → Effect
  | writeFile : String → String → Effect
  | gitAdd : List String → Effect
  | fixedMsg : List String → Effect
  | noChangesMsg : Effect
  deriving DecidableEq

/-- Outcome of the `subprocess.run` call that lists staged files: either
the process could not be spawned (a Python exception) or it completed
with a return code and captured stdout. -/
inductive SubprocOutcome where
  | spawnFailure : SubprocOutcome
  | completed : Int → String → SubprocOutcome

/-- `get_staged_files()`: `result.stdout.strip().splitlines()`.  A spawn
failure propagates as an exception; the return code of a completed
process is not inspected (the source passes no `check=True`). -/
def get_staged_files (q : SubprocOutcome) : Except Unit (List String) :=
  match q with
  | SubprocOutcome.spawnFailure => Except.error ()
  | SubprocOutcome.completed _ out => Except.ok (splitlines (pyStrip out))

/-- `block_if_protected(files)`: `some` of the printed trace when the
commit is blocked (the caller then exits 1), `none` otherwise. -/
def block_if_protected (files : List String) : Option (List Effect) :=
  let prot := files.filter (fun f => is_protected f)
  if prot.isEmpty then none
  else some (Effect.blockedHeaderMsg ::
    (prot.map (fun f => Effect.offendingPath f) ++ [Effect.blockedExplainMsg]))

/-- `line.startswith('+') and not line.startswith('+++')`. -/
def added_lines (diff : String) : List String :=
  (splitlines diff).filter
    (fun l => List.isPrefixOf ("+").data l.data
      && !List.isPrefixOf ("+++").data l.data)

/-- Inner loop of `check_for_logs` over the added lines of one file:
the reported warnings, and whether any line matched. -/
def scan_lines (file : String) : List String → List Effect × Bool
  | [] => ([], false)
  | line :: rest =>
    let t := scan_lines file rest
    if log_search line then (Effect.logDetected file line :: t.1, true)
    else t

/-- `check_for_logs(files)`: skip protected and non-existent files,
scan the added lines of each remaining staged diff, collect the
warnings, and return whether any match occurred anywhere. -/
def check_for_logs (env : Env) : List String → List Effect × Bool
  | [] => ([], false)
  | file :: rest =>
    let t := check_for_logs env rest
    if is_protected file then t
    else if env.diskExists file then
      let here := scan_lines file (added_lines (env.diffOf file))
      (here.1 ++ t.1, here.2 || t.2)
    else t

/-- Line loop of `auto_fix_logs` for one file: the kept lines (in
order) and the dropped lines (in order). -/
def fix_lines : List String → List String × List String
  | [] => ([], [])
  | line :: rest =>
    let t := fix_lines rest
    if fix_match line then (t.1, line :: t.2)
    else (line :: t.1, t.2)

/-- File loop of `auto_fix_logs`: effects of the loop body and the
accumulated `fixed_files` list. -/
def auto_fix_loop (env : Env) : List String → List Effect × List String
  | [] => ([], [])
  | file :: rest =>
    let t := auto_fix_loop env rest
    if is_protected file then t
    else if env.diskExists file then
      let r := fix_lines (splitlines (env.contentOf file))
      let effs := r.2.map (fun l => Effect.removedLine file l)
      if r.2.isEmpty then (effs ++ t.1, t.2)
      else (effs ++ [Effect.writeFile file (pyJoinNL r.1 ++ "\n")] ++ t.1,
            file :: t.2)
    else t

/-- `auto_fix_logs(files)`: run the file loop and then either re-add the
fixed files (`git add`) and report them, or report that no change was
needed. -/
def auto_fix_logs (env : Env) (files : List String) : List Effect :=
  let t := auto_fix_loop env files
  if t.2.isEmpty then t.1 ++ [Effect.noChangesMsg]
  else t.1 ++ [Effect.gitAdd t.2, Effect.fixedMsg t.2]

/-- The `__main__` block: list the staged files (propagating a spawn
failure), exit 0 when none are staged, block when a protected path is
staged, then run fix mode (always exit 0) or scan mode (exit 1 iff a
match was found). -/
def main_run (fixMode : Bool) (q : SubprocOutcome) (env : Env) :
    Except Unit (Int × List Effect) :=
  match get_staged_files q with
  | Except.error e => Except.error e
  | Except.ok staged_files =>
    if staged_files.isEmpty then Except.ok (0, [Effect.noStagedMsg])
    else
      match block_if_protected staged_files with
      | some effs => Except.ok (1, effs)
      | none =>
        if fixMode then Except.ok (0, auto_fix_logs env staged_files)
        else
          let r := check_for_logs env staged_files
          if r.2 then Except.ok (1, r.1 ++ [Effect.rejectionMsg])
          else Except.ok (0, r.1 ++ [Effect.confirmationMsg])

/-- Modelled from the spec: the scan-pattern contract stated
positionally — a line is flagged iff it starts with the `+` diff marker
and one of the five debug-statement alternatives holds at some position
after the marker (case-insensitively, with the bare-`log` alternative
excluded when immediately preceded by the qualifier `logger.`). -/
def spec_scan_flag (line : String) : Bool :=
  match line.data with
  | c :: rest =>
    c == '+' && (List.range (rest.length + 1)).any
      (fun i => altAt ((rest.take i).reverse ++ ['+']) (rest.drop i))
  | [] => false

/-! ### Shape lemmas for the scan pass -/

theorem scan_lines_fst (f : String) (ls : List String) :
    (scan_lines f ls).1 =
      (ls.filter (fun l => log_search l)).map (fun l => Effect.logDetected f l) := by
  induction ls with
  | nil => rfl
  | cons l rest ih =>
    simp only [scan_lines, List.filter_cons]
    cases h : log_search l <;> simp [h, ih]

theorem scan_lines_snd (f : String) (ls : List String) :
    (scan_lines f ls).2 = ls.any (fun l => log_search l) := by
  induction ls with
  | nil => rfl
  | cons l rest ih =>
    simp only [scan_lines, List.any_cons]
    cases h : log_search l <;> simp [h, ih]

theorem check_for_logs_snd (env : Env) (fs : List String) :
    (check_for_logs env fs).2 =
      fs.any (fun f => !is_protected f && env.diskExists f
        && (added_lines (env.diffOf f)).any (fun l => log_search l)) := by
  induction fs with
  | nil => rfl
  | cons f rest ih =>
    simp only [check_for_logs, List.any_cons]
    cases hp : is_protected f
    · cases hd : env.diskExists f
      · simp [hp, hd, ih]
      · simp [hp, hd, ih, scan_lines_snd]
    · simp [hp, ih]

theorem check_for_logs_len (env : Env) (fs : List String) :
    (check_for_logs env fs).1.length =
      (fs.map (fun f => if !is_protected f && env.diskExists f
         then (added_lines (env.diffOf f)).countP (fun l => log_search l)
         else 0)).sum := by
  induction fs with
  | nil => rfl
  | cons f rest ih =>
    simp only [check_for_logs, List.map_cons, List.sum_cons]
    cases hp : is_protected f
    · cases hd : env.diskExists f
      · simp [hp, hd, ih]
      · simp [hp, hd, ih, scan_lines_fst, List.countP_eq_length_filter]
    · simp [hp, ih]

theorem check_for_logs_fst (env : Env) (fs : List String) :
    (check_for_logs env fs).1 =
      (fs.map (fun f => if !is_protected f && env.diskExists f
         then ((added_lines (env.diffOf f)).filter (fun l => log_search l)).map
                (fun l => Effect.logDetected f l)
         else [])).flatten := by
  induction fs with
  | nil => rfl
  | cons f rest ih =>
    simp only [check_for_logs, List.map_cons, List.flatten_cons]
    cases hp : is_protected f
    · cases hd : env.diskExists f
      · simp [hp, hd, ih]
      · simp [hp, hd, ih, scan_lines_fst]
    · simp [hp, ih]

theorem check_for_logs_mem (env : Env) (fs : List String) (e : Effect) :
    e ∈ (check_for_logs env fs).1 ↔
      ∃ f ∈ fs, is_protected f = false ∧ env.diskExists f = true ∧
        ∃ l ∈ added_lines (env.diffOf f), log_search l = true ∧
          e = Effect.logDetected f l := by
  rw [check_for_logs_fst]
  simp only [List.mem_flatten, List.mem_map]
  constructor
  · rintro ⟨s, ⟨f, hf, rfl⟩, hes⟩
    by_cases hc : (!is_protected f && env.diskExists f) = true
    · rw [if_pos hc] at hes
      simp only [List.mem_map, List.mem_filter] at hes
      obtain ⟨l, ⟨hl, hls⟩, rfl⟩ := hes
      simp only [Bool.and_eq_true, Bool.not_eq_true'] at hc
      exact ⟨f, hf, hc.1, hc.2, l, hl, hls, rfl⟩
    · rw [if_neg hc] at hes
      cases hes
  · rintro ⟨f, hf, hp, hd, l, hl, hls, rfl⟩
    refine ⟨_, ⟨f, hf, rfl⟩, ?_⟩
    rw [if_pos (by simp [hp, hd])]
    simp only [List.mem_map, List.mem_filter]
    exact ⟨l, ⟨hl, hls⟩, rfl⟩

/-! ### Main-flow lemmas -/

theorem main_run_no_protected (mode : Bool) (q : SubprocOutcome) (env : Env)
    (fs : List String) (h1 : get_staged_files q = Except.ok fs) (h2 : fs ≠ [])
    (h3 : ∀ f ∈ fs, is_protected f = false) :
    main_run mode q env =
      if mode then Except.ok (0, auto_fix_logs env fs)
      else if (check_for_logs env fs).2 then
        Except.ok (1, (check_for_logs env fs).1 ++ [Effect.rejectionMsg])
      else Except.ok (0, (check_for_logs env fs).1 ++ [Effect.confirmationMsg]) := by
  have hne : fs.isEmpty = false := by
    cases fs with
    | nil => exact absurd rfl h2
    | cons a l => rfl
  have hblock : block_if_protected fs = none := by
    unfold block_if_protected
    have hfil : fs.filter (fun f => is_protected f) = [] :=
      List.filter_eq_nil_iff.mpr (fun f hf => by simp [h3 f hf])
    simp [hfil]
  unfold main_run
  rw [h1]
  simp only [hne, Bool.false_eq_true, if_false, hblock]

/-! ### C1 -/

/-- C1: in scan mode, for an invocation whose non-empty staged file set
contains no protected path, the scan returns `true` iff at least one
added line of at least one non-protected staged file that exists on disk
matches the combined debug pattern; one warning is reported per matching
occurrence across all files (not fail-fast), and the process exits 1
with a rejection message iff the result is `true`, otherwise 0 with a
confirmation message. -/
theorem scan_mode_aggregates_matches_and_sets_exit
    (q : SubprocOutcome) (env : Env) (fs : List String)
    (h1 : get_staged_files q = Except.ok fs) (h2 : fs ≠ [])
    (h3 : ∀ f ∈ fs, is_protected f = false) :
    ((check_for_logs env fs).2 = true ↔
      ∃ f ∈ fs, is_protected f = false ∧ env.diskExists f = true ∧
        ∃ l ∈ added_lines (env.diffOf f), log_search l = true)
    ∧ (check_for_logs env fs).1.length =
        (fs.map (fun f => if !is_protected f && env.diskExists f
           then (added_lines (env.diffOf f)).countP (fun l => log_search l)
           else 0)).sum
    ∧ main_run false q env =
        (if (check_for_logs env fs).2 then
          Except.ok (1, (check_for_logs env fs).1 ++ [Effect.rejectionMsg])
        else
          Except.ok (0, (check_for_logs env fs).1 ++ [Effect.confirmationMsg])) := by
  refine ⟨?_, check_for_logs_len env fs, ?_⟩
  · rw [check_for_logs_snd, List.any_eq_true]
    constructor
    · rintro ⟨f, hf, hc⟩
      simp only [Bool.and_eq_true, Bool.not_eq_true', List.any_eq_true] at hc
      exact ⟨f, hf, hc.1.1, hc.1.2, hc.2⟩
    · rintro ⟨f, hf, hp, hd, l, hl, hls⟩
      refine ⟨f, hf, ?_⟩
      simp only [Bool.and_eq_true, Bool.not_eq_true', List.any_eq_true]
      exact ⟨⟨hp, hd⟩, l, hl, hls⟩
  · have h := main_run_no_protected false q env fs h1 h2 h3
    simpa using h

def envScanW : Env :=
  { diskExists := fun f => f == "app.js"
    diffOf := fun f => if f == "app.js" then "+  console.log(\"debug\")\n" else ""
    contentOf := fun _ => "" }

def qScanW : SubprocOutcome := SubprocOutcome.completed 0 "app.js\n"

/-- Witness for C1 at a concrete invocation: one staged file `app.js`
whose diff adds a `console.log` line. -/
theorem scan_mode_aggregates_matches_and_sets_exit_witness :
    main_run false qScanW envScanW =
      (if (check_for_logs envScanW ["app.js"]).2 then
        Except.ok (1, (check_for_logs envScanW ["app.js"]).1 ++ [Effect.rejectionMsg])
      else
        Except.ok (0, (check_for_logs envScanW ["app.js"]).1 ++
          [Effect.confirmationMsg])) :=
  (scan_mode_aggregates_matches_and_sets_exit qScanW envScanW ["app.js"]
    rfl (by decide) (by decide)).2.2

/-! ### C2 -/

/-- The trace printed by `block_if_protected` when it fires. -/
def blocked_trace (fs : List String) : List Effect :=
  Effect.blockedHeaderMsg ::
    ((fs.filter (fun f => is_protected f)).map (fun f => Effect.offendingPath f)
      ++ [Effect.blockedExplainMsg])

theorem block_if_protected_fires (fs : List String)
    (h : ∃ f ∈ fs, is_protected f = true) :
    block_if_protected fs = some (blocked_trace fs) := by
  obtain ⟨f, hf, hp⟩ := h
  have hmem : f ∈ fs.filter (fun g => is_protected g) :=
    List.mem_filter.mpr ⟨hf, hp⟩
  have hne : (fs.filter (fun g => is_protected g)).isEmpty = false := by
    cases hfil : fs.filter (fun g => is_protected g) with
    | nil => rw [hfil] at hmem; cases hmem
    | cons a l => rfl
  unfold block_if_protected
  simp only [hne, Bool.false_eq_true, if_false, blocked_trace]

/-- C2: for every invocation (scan or fix mode) whose non-empty staged
file set contains a protected path, the tool prints each offending path
plus an explanatory message and exits 1 before any scanning or fixing:
the whole trace is the blocking report, containing every protected
staged path and no scan warning, no line removal, no file write and no
`git add`. -/
theorem protected_staged_path_blocks_both_modes
    (mode : Bool) (q : SubprocOutcome) (env : Env) (fs : List String)
    (h1 : get_staged_files q = Except.ok fs) (h2 : fs ≠ [])
    (h3 : ∃ f ∈ fs, is_protected f = true) :
    main_run mode q env = Except.ok (1, blocked_trace fs)
    ∧ (∀ f ∈ fs, is_protected f = true →
        Effect.offendingPath f ∈ blocked_trace fs)
    ∧ (∀ f l, Effect.logDetected f l ∉ blocked_trace fs)
    ∧ (∀ f l, Effect.removedLine f l ∉ blocked_trace fs)
    ∧ (∀ f c, Effect.writeFile f c ∉ blocked_trace fs)
    ∧ (∀ g, Effect.gitAdd g ∉ blocked_trace fs) := by
  have hne : fs.isEmpty = false := by
    cases fs with
    | nil => exact absurd rfl h2
    | cons a l => rfl
  refine ⟨?_, ?_, ?_, ?_, ?_, ?_⟩
  · unfold main_run
    rw [h1]
    simp only [hne, Bool.false_eq_true, if_false, block_if_protected_fires fs h3]
  · intro f hf hp
    simp only [blocked_trace, List.mem_cons, List.mem_append, List.mem_map]
    exact Or.inr (Or.inl ⟨f, List.mem_filter.mpr ⟨hf, hp⟩, rfl⟩)
  · intro f l
    simp [blocked_trace]
  · intro f l
    simp [blocked_trace]
  · intro f c
    simp [blocked_trace]
  · intro g
    simp [blocked_trace]

def qProtW : SubprocOutcome := SubprocOutcome.completed 0 "src/config/settings.yaml\n"

/-- Witness for C2 at a concrete invocation: the single staged file
`src/config/settings.yaml` blocks fix mode. -/
theorem protected_staged_path_blocks_both_modes_witness :
    main_run true qProtW envScanW =
      Except.ok (1, blocked_trace ["src/config/settings.yaml"]) :=
  (protected_staged_path_blocks_both_modes true qProtW envScanW
    ["src/config/settings.yaml"] rfl (by decide)
    ⟨"src/config/settings.yaml", by decide, by decide⟩).1

/-! ### C3 -/

theorem scanSearch_eq_positions (rest : List Char) : ∀ pRev : List Char,
    '\n' ∉ rest →
    scanSearch pRev rest =
      (List.range (rest.length + 1)).any
        (fun i => altAt ((rest.take i).reverse ++ pRev) (rest.drop i)) := by
  induction rest with
  | nil =>
    intro pRev _
    simp [scanSearch, List.range_succ, List.range_zero]
  | cons c cs ih =>
    intro pRev h
    have hc : ¬c = '\n' := by
      intro hcn
      exact h (hcn ▸ List.mem_cons_self c cs)
    have hcs : '\n' ∉ cs := fun hm => h (List.mem_cons_of_mem c hm)
    simp only [scanSearch, if_neg hc, List.length_cons]
    rw [List.range_succ_eq_map, ih (c :: pRev) hcs]
    simp only [List.any_cons, List.any_map, List.take_zero, List.reverse_nil,
      List.nil_append, List.drop_zero]
    congr 2
    funext i
    simp [Function.comp, List.take_succ_cons, List.drop_succ_cons,
      List.append_assoc, Nat.succ_eq_add_one]

theorem log_search_eq_spec_scan_flag (line : String) (h : '\n' ∉ line.data) :
    log_search line = spec_scan_flag line := by
  unfold log_search spec_scan_flag
  cases hd : line.data with
  | nil => rfl
  | cons c rest =>
    rw [hd] at h
    have hrest : '\n' ∉ rest := fun hm => h (List.mem_cons_of_mem c hm)
    show (c == '+' && scanSearch ['+'] rest) = _
    rw [scanSearch_eq_positions rest ['+'] hrest]

/-- C3: an added line is flagged iff it contains, case-insensitively and
at some position after the leading `+` marker, one of the five debug
forms — with `logger.log(...)` exempted from the bare-`log` rule.
First conjunct: the anchored-then-`.*` search equals the spec's
any-position reading for newline-free lines (added lines never contain a
newline).  Second conjunct: `check_for_logs` reports exactly the lines
the combined pattern matches.  The remaining conjuncts check one
concrete line of each form, a case-variant, the `logger.log` exemption,
and a line lacking the `+` marker. -/
theorem scan_flags_exactly_the_debug_forms :
    (∀ line : String, '\n' ∉ line.data → log_search line = spec_scan_flag line)
    ∧ (∀ (f : String) (ls : List String) (l : String),
        Effect.logDetected f l ∈ (scan_lines f ls).1 ↔
          l ∈ ls ∧ log_search l = true)
    ∧ log_search "+  console.log(x)" = true
    ∧ log_search "+if print (x):" = true
    ∧ log_search "+System.out.println(x);" = true
    ∧ log_search "+echo hello" = true
    ∧ log_search "+y = log(x)" = true
    ∧ log_search "+CONSOLE.LOG(x)" = true
    ∧ log_search "+logger.log(event)" = false
    ∧ log_search "console.log(x)" = false := by
  refine ⟨log_search_eq_spec_scan_flag, ?_, by decide, by decide, by decide,
    by decide, by decide, by decide, by decide, by decide⟩
  intro f ls l
  rw [scan_lines_fst]
  simp only [List.mem_map, List.mem_filter, Effect.logDetected.injEq]
  constructor
  · rintro ⟨l', ⟨hl', hs⟩, -, rfl⟩
    exact ⟨hl', hs⟩
  · rintro ⟨hl, hs⟩
    exact ⟨l, ⟨hl, hs⟩, trivial, rfl⟩

/-- Witness for C3 at a concrete line: the search and the spec's
any-position reading agree on `+log(1)`. -/
theorem scan_flags_exactly_the_debug_forms_witness :
    log_search "+log(1)" = spec_scan_flag "+log(1)" :=
  scan_flags_exactly_the_debug_forms.1 "+log(1)" (by decide)

/-! ### Shape lemmas for the fix pass -/

theorem fix_lines_eq (ls : List String) :
    fix_lines ls = (ls.filter (fun l => !fix_match l),
                    ls.filter (fun l => fix_match l)) := by
  induction ls with
  | nil => rfl
  | cons l rest ih =>
    simp only [fix_lines, List.filter_cons]
    cases h : fix_match l <;> simp [h, ih]

theorem filter_isEmpty_eq_not_any (p : String → Bool) (ls : List String) :
    (ls.filter p).isEmpty = !ls.any p := by
  induction ls with
  | nil => rfl
  | cons l rest ih =>
    cases h : p l <;> simp [List.filter_cons, h, List.any_cons, ih]

/-- Effects of one iteration of the `auto_fix_logs` file loop on a
non-protected file that exists on disk: one removal report per dropped
line, then the rewrite when some line was dropped. -/
def file_fix_effects (env : Env) (file : String) : List Effect :=
  if (splitlines (env.contentOf file)).any (fun l => fix_match l) then
    ((splitlines (env.contentOf file)).filter (fun l => fix_match l)).map
      (fun l => Effect.removedLine file l)
    ++ [Effect.writeFile file
          (pyJoinNL ((splitlines (env.contentOf file)).filter
            (fun l => !fix_match l)) ++ "\n")]
  else []

theorem auto_fix_loop_fst (env : Env) (fs : List String) :
    (auto_fix_loop env fs).1 =
      (fs.map (fun f => if !is_protected f && env.diskExists f
         then file_fix_effects env f else [])).flatten := by
  induction fs with
  | nil => rfl
  | cons f rest ih =>
    simp only [auto_fix_loop, List.map_cons, List.flatten_cons]
    cases hp : is_protected f
    · cases hd : env.diskExists f
      · simp only [hp, hd, Bool.not_false, Bool.true_and, Bool.false_eq_true,
          reduceIte, List.nil_append, ih]
      · cases hany : (splitlines (env.contentOf f)).any (fun l => fix_match l)
        · have hfil : (splitlines (env.contentOf f)).filter
              (fun l => fix_match l) = [] := by
            rw [List.filter_eq_nil_iff]
            intro l hl
            exact (List.any_eq_false.mp hany) l hl
          simp only [hp, hd, hany, fix_lines_eq, hfil, file_fix_effects,
            List.isEmpty_nil, Bool.not_false, Bool.true_and,
            Bool.false_eq_true, reduceIte, List.map_nil, List.nil_append, ih]
        · simp only [hp, hd, hany, fix_lines_eq, filter_isEmpty_eq_not_any,
            file_fix_effects, Bool.not_true, Bool.not_false, Bool.true_and,
            Bool.false_eq_true, reduceIte, List.append_assoc,
            List.singleton_append, ih]
    · simp only [hp, Bool.not_true, Bool.false_and, Bool.false_eq_true,
        reduceIte, List.nil_append, ih]

theorem auto_fix_loop_snd (env : Env) (fs : List String) :
    (auto_fix_loop env fs).2 =
      fs.filter (fun f => !is_protected f && env.diskExists f
        && (splitlines (env.contentOf f)).any (fun l => fix_match l)) := by
  induction fs with
  | nil => rfl
  | cons f rest ih =>
    simp only [auto_fix_loop, List.filter_cons]
    cases hp : is_protected f
    · cases hd : env.diskExists f
      · simp only [hp, hd, Bool.not_false, Bool.true_and, Bool.false_and,
          Bool.and_false, Bool.false_eq_true, reduceIte, ih]
      · cases hany : (splitlines (env.contentOf f)).any (fun l => fix_match l)
        · simp only [hp, hd, hany, fix_lines_eq, filter_isEmpty_eq_not_any,
            Bool.not_false, Bool.true_and, Bool.and_false, Bool.false_and,
            Bool.false_eq_true, reduceIte, ih]
        · simp only [hp, hd, hany, fix_lines_eq, filter_isEmpty_eq_not_any,
            Bool.not_true, Bool.not_false, Bool.true_and, Bool.and_true,
            Bool.false_eq_true, reduceIte, ih]
    · simp only [hp, Bool.not_true, Bool.false_and, Bool.false_eq_true,
        reduceIte, ih]

theorem mem_auto_fix_logs (env : Env) (fs : List String) (e : Effect) :
    e ∈ auto_fix_logs env fs ↔ (e ∈ (auto_fix_loop env fs).1 ∨
      e ∈ (if (auto_fix_loop env fs).2.isEmpty then [Effect.noChangesMsg]
           else [Effect.gitAdd (auto_fix_loop env fs).2,
                 Effect.fixedMsg (auto_fix_loop env fs).2])) := by
  unfold auto_fix_logs
  cases h : (auto_fix_loop env fs).2.isEmpty <;> simp [h]

theorem writeFile_mem_file_fix_effects (env : Env) (g f c : String) :
    Effect.writeFile f c ∈ file_fix_effects env g ↔
      ((splitlines (env.contentOf g)).any (fun l => fix_match l) = true
        ∧ f = g
        ∧ c = pyJoinNL ((splitlines (env.contentOf g)).filter
              (fun l => !fix_match l)) ++ "\n") := by
  unfold file_fix_effects
  cases hany : (splitlines (env.contentOf g)).any (fun l => fix_match l)
  · simp only [Bool.false_eq_true, reduceIte, List.not_mem_nil, false_iff]
    rintro ⟨h, -, -⟩
    cases h
  · simp only [reduceIte, List.mem_append, List.mem_map, List.mem_singleton]
    constructor
    · rintro (⟨l', -, he⟩ | he)
      · cases he
      · injection he with h1 h2
        exact ⟨trivial, h1, h2⟩
    · rintro ⟨-, rfl, rfl⟩
      exact Or.inr rfl

theorem removedLine_mem_file_fix_effects (env : Env) (g f l : String) :
    Effect.removedLine f l ∈ file_fix_effects env g ↔
      (f = g ∧ l ∈ splitlines (env.contentOf g) ∧ fix_match l = true) := by
  unfold file_fix_effects
  cases hany : (splitlines (env.contentOf g)).any (fun l => fix_match l)
  · simp only [Bool.false_eq_true, reduceIte, List.not_mem_nil, false_iff]
    rintro ⟨-, hl, hm⟩
    exact absurd hm (by simp [(List.any_eq_false.mp hany) l hl])
  · simp only [reduceIte, List.mem_append, List.mem_map, List.mem_filter,
      List.mem_singleton]
    constructor
    · rintro (⟨l', ⟨hl', hm'⟩, he⟩ | he)
      · injection he with h1 h2
        exact ⟨h1.symm, h2 ▸ hl', h2 ▸ hm'⟩
      · cases he
    · rintro ⟨rfl, hl, hm⟩
      exact Or.inl ⟨l, ⟨hl, hm⟩, rfl⟩

theorem auto_fix_logs_mem_writeFile (env : Env) (fs : List String)
    (f c : String) :
    Effect.writeFile f c ∈ auto_fix_logs env fs ↔
      (f ∈ fs ∧ is_protected f = false ∧ env.diskExists f = true ∧
        (splitlines (env.contentOf f)).any (fun l => fix_match l) = true ∧
        c = pyJoinNL ((splitlines (env.contentOf f)).filter
              (fun l => !fix_match l)) ++ "\n") := by
  rw [mem_auto_fix_logs]
  constructor
  · rintro (h | h)
    · rw [auto_fix_loop_fst] at h
      simp only [List.mem_flatten, List.mem_map] at h
      obtain ⟨s, ⟨g, hg, rfl⟩, hm⟩ := h
      by_cases hcond : (!is_protected g && env.diskExists g) = true
      · rw [if_pos hcond, writeFile_mem_file_fix_effects] at hm
        obtain ⟨hany, rfl, hc⟩ := hm
        simp only [Bool.and_eq_true, Bool.not_eq_true'] at hcond
        exact ⟨hg, hcond.1, hcond.2, hany, hc⟩
      · rw [if_neg hcond] at hm
        cases hm
    · exfalso
      cases ht : (auto_fix_loop env fs).2.isEmpty <;> rw [ht] at h <;> simp at h
  · rintro ⟨hg, hp, hd, hany, hc⟩
    left
    rw [auto_fix_loop_fst]
    simp only [List.mem_flatten, List.mem_map]
    refine ⟨_, ⟨f, hg, rfl⟩, ?_⟩
    rw [if_pos (by simp [hp, hd]), writeFile_mem_file_fix_effects]
    exact ⟨hany, rfl, hc⟩

theorem auto_fix_logs_mem_removedLine (env : Env) (fs : List String)
    (f l : String) :
    Effect.removedLine f l ∈ auto_fix_logs env fs ↔
      (f ∈ fs ∧ is_protected f = false ∧ env.diskExists f = true ∧
        l ∈ splitlines (env.contentOf f) ∧ fix_match l = true) := by
  rw [mem_auto_fix_logs]
  constructor
  · rintro (h | h)
    · rw [auto_fix_loop_fst] at h
      simp only [List.mem_flatten, List.mem_map] at h
      obtain ⟨s, ⟨g, hg, rfl⟩, hm⟩ := h
      by_cases hcond : (!is_protected g && env.diskExists g) = true
      · rw [if_pos hcond, removedLine_mem_file_fix_effects] at hm
        obtain ⟨rfl, hl, hm⟩ := hm
        simp only [Bool.and_eq_true, Bool.not_eq_true'] at hcond
        exact ⟨hg, hcond.1, hcond.2, hl, hm⟩
      · rw [if_neg hcond] at hm
        cases hm
    · exfalso
      cases ht : (auto_fix_loop env fs).2.isEmpty <;> rw [ht] at h <;> simp at h
  · rintro ⟨hg, hp, hd, hl, hm⟩
    left
    rw [auto_fix_loop_fst]
    simp only [List.mem_flatten, List.mem_map]
    refine ⟨_, ⟨f, hg, rfl⟩, ?_⟩
    rw [if_pos (by simp [hp, hd]), removedLine_mem_file_fix_effects]
    exact ⟨rfl, hl, hm⟩

/-! ### C4 -/

/-- C4: in fix mode, for every non-protected staged file that exists on
disk, exactly the lines matching a fix pattern are dropped and the
others kept in order: the file is rewritten iff some line matched, with
content the kept lines joined by newlines plus one trailing newline; the
set of fixed files is exactly the rewritten ones and they are re-added
via `git add`; and fix mode exits 0 regardless of whether anything
changed. -/
theorem fix_mode_drops_matching_lines_rewrites_and_exits_zero
    (q : SubprocOutcome) (env : Env) (fs : List String)
    (h1 : get_staged_files q = Except.ok fs) (h2 : fs ≠ [])
    (h3 : ∀ f ∈ fs, is_protected f = false) :
    main_run true q env = Except.ok (0, auto_fix_logs env fs)
    ∧ (∀ f ∈ fs, env.diskExists f = true →
        ((splitlines (env.contentOf f)).any (fun l => fix_match l) = true →
          Effect.writeFile f
              (pyJoinNL ((splitlines (env.contentOf f)).filter
                (fun l => !fix_match l)) ++ "\n") ∈ auto_fix_logs env fs)
        ∧ ((splitlines (env.contentOf f)).any (fun l => fix_match l) = false →
          ∀ c, Effect.writeFile f c ∉ auto_fix_logs env fs))
    ∧ (auto_fix_loop env fs).2 =
        fs.filter (fun f => env.diskExists f
          && (splitlines (env.contentOf f)).any (fun l => fix_match l))
    ∧ ((auto_fix_loop env fs).2 ≠ [] →
        Effect.gitAdd ((auto_fix_loop env fs).2) ∈ auto_fix_logs env fs) := by
  refine ⟨?_, ?_, ?_, ?_⟩
  · have h := main_run_no_protected true q env fs h1 h2 h3
    simpa using h
  · intro f hf hd
    constructor
    · intro hany
      rw [auto_fix_logs_mem_writeFile]
      exact ⟨hf, h3 f hf, hd, hany, rfl⟩
    · intro hany c hmem
      rw [auto_fix_logs_mem_writeFile] at hmem
      rw [hmem.2.2.2.1] at hany
      cases hany
  · rw [auto_fix_loop_snd]
    apply List.filter_congr
    intro f hf
    simp [h3 f hf]
  · intro hne
    rw [mem_auto_fix_logs]
    right
    have hie : (auto_fix_loop env fs).2.isEmpty = false := by
      cases hl : (auto_fix_loop env fs).2 with
      | nil => exact absurd hl hne
      | cons a as => rfl
    rw [hie]
    simp

def envFixW : Env :=
  { diskExists := fun f => f == "app.js"
    diffOf := fun _ => ""
    contentOf := fun f => if f == "app.js"
      then "  console.log(\"debug\")\nkeep()" else "" }

/-- Witness for C4 at a concrete invocation: fix mode on the staged file
`app.js` whose content holds one standalone `console.log` line. -/
theorem fix_mode_drops_matching_lines_rewrites_and_exits_zero_witness :
    main_run true qScanW envFixW = Except.ok (0, auto_fix_logs envFixW ["app.js"]) :=
  (fix_mode_drops_matching_lines_rewrites_and_exits_zero qScanW envFixW
    ["app.js"] rfl (by decide) (by decide)).1

/-! ### C9 -/

theorem gitAdd_not_mem_auto_fix_loop (env : Env) (fs : List String)
    (g : List String) :
    Effect.gitAdd g ∉ (auto_fix_loop env fs).1 := by
  intro h
  rw [auto_fix_loop_fst] at h
  simp only [List.mem_flatten, List.mem_map] at h
  obtain ⟨s, ⟨x, hx, rfl⟩, hm⟩ := h
  by_cases hcond : (!is_protected x && env.diskExists x) = true
  · rw [if_pos hcond] at hm
    unfold file_fix_effects at hm
    cases hany : (splitlines (env.contentOf x)).any (fun l => fix_match l) <;>
      rw [hany] at hm <;> simp at hm
  · rw [if_neg hcond] at hm
    cases hm

/-- C9: protected files are skipped by both passes unconditionally —
the scan never reports on a protected path, the fix pass never removes a
line from it, never rewrites it, and never re-stages it, whatever its
diff or contents. -/
theorem protected_files_never_reported_or_rewritten
    (env : Env) (fs : List String) (f : String)
    (hp : is_protected f = true) :
    (∀ l, Effect.logDetected f l ∉ (check_for_logs env fs).1)
    ∧ (∀ c, Effect.writeFile f c ∉ auto_fix_logs env fs)
    ∧ (∀ l, Effect.removedLine f l ∉ auto_fix_logs env fs)
    ∧ (∀ g, Effect.gitAdd g ∈ auto_fix_logs env fs → f ∉ g) := by
  refine ⟨?_, ?_, ?_, ?_⟩
  · intro l hmem
    rw [check_for_logs_mem] at hmem
    obtain ⟨g, hg, hgp, hgd, l2, hl2, hc2, he⟩ := hmem
    injection he with h1 h2
    rw [← h1] at hgp
    rw [hp] at hgp
    cases hgp
  · intro c hmem
    rw [auto_fix_logs_mem_writeFile] at hmem
    have := hmem.2.1
    rw [hp] at this
    cases this
  · intro l hmem
    rw [auto_fix_logs_mem_removedLine] at hmem
    have := hmem.2.1
    rw [hp] at this
    cases this
  · intro g hmem hfg
    rw [mem_auto_fix_logs] at hmem
    rcases hmem with hmem | hmem
    · exact gitAdd_not_mem_auto_fix_loop env fs g hmem
    · cases ht : (auto_fix_loop env fs).2.isEmpty <;> rw [ht] at hmem
      · simp only [Bool.false_eq_true, reduceIte, List.mem_cons,
          List.mem_singleton] at hmem
        rcases hmem with he | he | he
        · injection he with h1
          rw [h1] at hfg
          rw [auto_fix_loop_snd] at hfg
          have := (List.mem_filter.mp hfg).2
          simp only [Bool.and_eq_true, Bool.not_eq_true'] at this
          rw [hp] at this
          cases this.1.1
        · cases he
        · cases he
      · simp at hmem

def envProtW : Env :=
  { diskExists := fun _ => true
    diffOf := fun _ => "+print(1)\n"
    contentOf := fun _ => "print(1)" }

/-- Witness for C9: a protected existing file whose diff and content
both match the patterns is still never rewritten by the fix pass. -/
theorem protected_files_never_reported_or_rewritten_witness :
    Effect.writeFile "src/config/settings.yaml" "\n" ∉
      auto_fix_logs envProtW ["src/config/settings.yaml"] :=
  (protected_files_never_reported_or_rewritten envProtW
    ["src/config/settings.yaml"] "src/config/settings.yaml"
    (by decide)).2.1 "\n"

/-! ### C5 -/

theorem str_data_append (a b : String) : (a ++ b).data = a.data ++ b.data := rfl

theorem splitlinesAux_no_nl (rest : List Char) : ∀ cur, '\n' ∉ cur →
    ∀ l ∈ splitlinesAux cur rest, '\n' ∉ l := by
  induction rest with
  | nil =>
    intro cur hcur l hl
    unfold splitlinesAux at hl
    cases hc : cur.isEmpty <;> rw [hc] at hl
    · simp only [Bool.false_eq_true, reduceIte, List.mem_singleton] at hl
      rw [hl]
      simp only [List.mem_reverse]
      exact hcur
    · simp at hl
  | cons c cs ih =>
    intro cur hcur l hl
    unfold splitlinesAux at hl
    by_cases hc : c = '\n'
    · rw [if_pos hc] at hl
      rcases List.mem_cons.mp hl with rfl | hl
      · simp only [List.mem_reverse]
        exact hcur
      · exact ih [] (by simp) l hl
    · rw [if_neg hc] at hl
      refine ih (c :: cur) ?_ l hl
      intro hm
      rcases List.mem_cons.mp hm with he | hm
      · exact hc he.symm
      · exact hcur hm

theorem splitlines_no_nl (s : String) : ∀ l ∈ splitlines s, '\n' ∉ l.data := by
  intro l hl
  unfold splitlines at hl
  obtain ⟨cl, hcl, rfl⟩ := List.mem_map.mp hl
  exact splitlinesAux_no_nl s.data [] (by simp) cl hcl

theorem splitlinesAux_through (l : List Char) : ∀ (cur rest : List Char),
    '\n' ∉ l →
    splitlinesAux cur (l ++ rest) = splitlinesAux (l.reverse ++ cur) rest := by
  induction l with
  | nil => intro cur rest _; rfl
  | cons c cs ih =>
    intro cur rest h
    have hc : ¬c = '\n' := by
      intro hcn
      exact h (hcn ▸ List.mem_cons_self c cs)
    show (if c = '\n' then cur.reverse :: splitlinesAux [] (cs ++ rest)
          else splitlinesAux (c :: cur) (cs ++ rest)) = _
    rw [if_neg hc, ih (c :: cur) rest (fun hm => h (List.mem_cons_of_mem c hm))]
    congr 1
    simp [List.reverse_cons, List.append_assoc]

theorem splitlines_pyJoinNL (ls : List String) (h : ∀ l ∈ ls, '\n' ∉ l.data)
    (hne : ls ≠ []) :
    splitlines (pyJoinNL ls ++ "\n") = ls := by
  induction ls with
  | nil => exact absurd rfl hne
  | cons a as ih =>
    cases as with
    | nil =>
      show splitlines (a ++ "\n") = [a]
      unfold splitlines
      rw [str_data_append]
      rw [splitlinesAux_through a.data [] ("\n").data
        (h a (List.mem_cons_self a []))]
      simp [splitlinesAux]
    | cons b bs =>
      have hx : pyJoinNL (a :: b :: bs) ++ "\n"
          = a ++ ("\n" ++ (pyJoinNL (b :: bs) ++ "\n")) := by
        show (a ++ "\n" ++ pyJoinNL (b :: bs)) ++ "\n" = _
        rw [String.append_assoc, String.append_assoc]
      rw [hx]
      unfold splitlines
      rw [str_data_append]
      rw [splitlinesAux_through a.data [] _ (h a (List.mem_cons_self a _))]
      have hstep : ("\n" ++ (pyJoinNL (b :: bs) ++ "\n")).data
          = '\n' :: (pyJoinNL (b :: bs) ++ "\n").data := rfl
      rw [hstep]
      unfold splitlinesAux
      simp only [reduceIte, List.map_cons]
      have hrec : (splitlinesAux [] ((pyJoinNL (b :: bs) ++ "\n")).data).map
          String.mk = b :: bs := by
        have := ih (fun l hl => h l (List.mem_cons_of_mem a hl)) (by simp)
        unfold splitlines at this
        exact this
      rw [hrec]
      simp

/-- C5: the fix pass is idempotent on a file's content — after a pass
that dropped at least one line, no line of the rewritten content (the
kept lines joined by newlines plus the trailing newline, re-split on
reading) matches any fix pattern, so a second pass keeps every line and
drops none, hence performs no rewrite (`modified` stays false). -/
theorem fix_pass_idempotent (content : String)
    (h : (fix_lines (splitlines content)).2 ≠ []) :
    (∀ l ∈ splitlines (pyJoinNL (fix_lines (splitlines content)).1 ++ "\n"),
      fix_match l = false)
    ∧ fix_lines (splitlines
        (pyJoinNL (fix_lines (splitlines content)).1 ++ "\n"))
        = (splitlines (pyJoinNL (fix_lines (splitlines content)).1 ++ "\n"),
           []) := by
  have hkept : (fix_lines (splitlines content)).1
      = (splitlines content).filter (fun l => !fix_match l) := by
    rw [fix_lines_eq]
  have hnomatch : ∀ l ∈ (fix_lines (splitlines content)).1,
      fix_match l = false := by
    intro l hl
    rw [hkept] at hl
    have := (List.mem_filter.mp hl).2
    simpa using this
  have hnl : ∀ l ∈ (fix_lines (splitlines content)).1, '\n' ∉ l.data := by
    intro l hl
    rw [hkept] at hl
    exact splitlines_no_nl content l (List.mem_filter.mp hl).1
  by_cases hke : (fix_lines (splitlines content)).1 = []
  · rw [hke]
    exact ⟨by decide, by decide⟩
  · have hsp : splitlines (pyJoinNL (fix_lines (splitlines content)).1 ++ "\n")
        = (fix_lines (splitlines content)).1 :=
      splitlines_pyJoinNL _ hnl hke
    rw [hsp]
    refine ⟨hnomatch, ?_⟩
    rw [fix_lines_eq]
    have h2 : ((fix_lines (splitlines content)).1).filter
        (fun l => !fix_match l) = (fix_lines (splitlines content)).1 :=
      List.filter_eq_self.mpr (fun l hl => by simp [hnomatch l hl])
    have h3 : ((fix_lines (splitlines content)).1).filter
        (fun l => fix_match l) = [] :=
      List.filter_eq_nil_iff.mpr (fun l hl => by simp [hnomatch l hl])
    rw [h2, h3]

/-- Witness for C5 at a concrete content with one dropped line: the
second pass keeps everything and drops nothing. -/
theorem fix_pass_idempotent_witness :
    fix_lines (splitlines
        (pyJoinNL (fix_lines (splitlines "print(1)\nkeep")).1 ++ "\n"))
      = (splitlines
          (pyJoinNL (fix_lines (splitlines "print(1)\nkeep")).1 ++ "\n"),
         []) :=
  (fix_pass_idempotent "print(1)\nkeep" (by decide)).2

/-! ### C6 -/

/-- C6: when the staged-file query returns an empty list, the tool
prints the nothing-to-check message and exits 0 in both modes; the
whole trace is that single message, so neither the protected-path
check nor any scanning or fixing runs. -/
theorem empty_staged_set_exits_zero_before_protected_check
    (mode : Bool) (q : SubprocOutcome) (env : Env)
    (h : get_staged_files q = Except.ok []) :
    main_run mode q env = Except.ok (0, [Effect.noStagedMsg]) := by
  unfold main_run
  rw [h]
  rfl

/-- Witness for C6: a completed query with empty output in fix mode. -/
theorem empty_staged_set_exits_zero_before_protected_check_witness :
    main_run true (SubprocOutcome.completed 0 "") envScanW
      = Except.ok (0, [Effect.noStagedMsg]) :=
  empty_staged_set_exits_zero_before_protected_check true
    (SubprocOutcome.completed 0 "") envScanW rfl

/-! ### C7 -/

/-- C7 counterexample: a staged-file query that fails with git exit
status 128 and empty captured output is not propagated as a fatal
error — in both modes the tool reports nothing-to-check and exits 0,
i.e. it behaves exactly as if there were zero staged files. -/
theorem failed_query_masked_as_no_staged_files :
    (128 : Int) ≠ 0
    ∧ main_run false (SubprocOutcome.completed 128 "") envProtW
        = Except.ok (0, [Effect.noStagedMsg])
    ∧ main_run true (SubprocOutcome.completed 128 "") envProtW
        = Except.ok (0, [Effect.noStagedMsg]) :=
  ⟨by decide, rfl, rfl⟩

/-- C7 amended: only a spawn failure of the staged-file query (the
subprocess cannot be executed, a Python exception) propagates as a
fatal error; a query subprocess that completes with a non-zero exit
status is not detected — its status is ignored, and with empty output
the tool reports nothing-to-check and exits 0 as if no file were
staged. -/
theorem spawn_failure_propagates_but_exit_status_ignored
    (mode : Bool) (env : Env) (rc : Int) :
    main_run mode SubprocOutcome.spawnFailure env = Except.error ()
    ∧ main_run mode (SubprocOutcome.completed rc "") env
        = Except.ok (0, [Effect.noStagedMsg]) :=
  ⟨rfl, rfl⟩

/-! ### C8 -/

theorem isPrefixOf_plus_iff (l : String) :
    List.isPrefixOf ("+").data l.data = true ↔ l.data.head? = some '+' := by
  cases hd : l.data with
  | nil => simp [List.isPrefixOf]
  | cons c cs =>
    show List.isPrefixOf ['+'] (c :: cs) = true ↔ some c = some '+'
    rw [List.isPrefixOf_cons₂]
    simp only [Bool.and_eq_true, beq_iff_eq, Option.some.injEq]
    constructor
    · rintro ⟨rfl, -⟩
      rfl
    · intro h
      exact ⟨h.symm, List.isPrefixOf_iff_prefix.mpr List.nil_prefix⟩

/-- C8: a line of a file's staged diff is treated as an added line iff
its first character is `+` and it does not start with the `+++`
file-header marker; each added line is carried verbatim (it is a line
of the diff's split output, leading `+` included). -/
theorem added_lines_characterisation (diff l : String) :
    l ∈ added_lines diff ↔
      (l ∈ splitlines diff ∧ l.data.head? = some '+'
        ∧ List.isPrefixOf ("+++").data l.data = false) := by
  unfold added_lines
  rw [List.mem_filter]
  constructor
  · rintro ⟨hl, hb⟩
    simp only [Bool.and_eq_true, Bool.not_eq_true'] at hb
    exact ⟨hl, (isPrefixOf_plus_iff l).mp hb.1, hb.2⟩
  · rintro ⟨hl, hh, h3⟩
    refine ⟨hl, ?_⟩
    simp only [Bool.and_eq_true, Bool.not_eq_true']
    exact ⟨(isPrefixOf_plus_iff l).mpr hh, h3⟩

/-! ### C10 -/

def envEmptyFileW : Env :=
  { diskExists := fun _ => true
    diffOf := fun _ => ""
    contentOf := fun _ => "" }

/-- C10 counterexample: the staged file `a.py` exists with empty
content, so every one of its (zero) lines matches a fix pattern, yet
the fix pass performs no rewrite at all — the file is left empty, not
rewritten to a single newline. -/
theorem empty_file_all_lines_match_but_no_rewrite :
    (splitlines (envEmptyFileW.contentOf "a.py")).all
        (fun l => fix_match l) = true
    ∧ is_protected "a.py" = false
    ∧ envEmptyFileW.diskExists "a.py" = true
    ∧ auto_fix_logs envEmptyFileW ["a.py"] = [Effect.noChangesMsg] :=
  ⟨by decide, by decide, by decide, by decide⟩

/-- C10 (amended): in fix mode, every non-protected staged file that
exists on disk, has at least one line, and whose every line matches a
fix pattern, is rewritten with content exactly one newline character —
the empty body plus the trailing newline. -/
theorem all_lines_match_rewrites_to_single_newline
    (env : Env) (fs : List String) (f : String)
    (h1 : f ∈ fs) (h2 : is_protected f = false)
    (h3 : env.diskExists f = true)
    (h4 : splitlines (env.contentOf f) ≠ [])
    (h5 : ∀ l ∈ splitlines (env.contentOf f), fix_match l = true) :
    Effect.writeFile f "\n" ∈ auto_fix_logs env fs := by
  rw [auto_fix_logs_mem_writeFile]
  have hany : (splitlines (env.contentOf f)).any (fun l => fix_match l)
      = true := by
    obtain ⟨a, ha⟩ := List.exists_mem_of_ne_nil _ h4
    exact List.any_eq_true.mpr ⟨a, ha, h5 a ha⟩
  have hfil : (splitlines (env.contentOf f)).filter (fun l => !fix_match l)
      = [] :=
    List.filter_eq_nil_iff.mpr (fun l hl => by simp [h5 l hl])
  refine ⟨h1, h2, h3, hany, ?_⟩
  rw [hfil]
  rfl

def envC10W : Env :=
  { diskExists := fun _ => true
    diffOf := fun _ => ""
    contentOf := fun _ => "print(1)" }

/-- Witness for the amended C10: a one-line file whose single line is
`print(1)` is rewritten to a single newline. -/
theorem all_lines_match_rewrites_to_single_newline_witness :
    Effect.writeFile "a.py" "\n" ∈ auto_fix_logs envC10W ["a.py"] :=
  all_lines_match_rewrites_to_single_newline envC10W ["a.py"] "a.py"
    (by decide) (by decide) (by decide) (by decide) (by decide)
